import Mathlib

/-!
Verification of the finance-briefing notifier (finance_morning.py, main.py,
add_user.py, web/app.py, web/models.py).

Modelling conventions of this shallow embedding:
* Python strings are modelled as `List Char` (`Str` below); character
  classification (`str.strip`, `str.lower`, the regex class `\d`) is modelled
  over the ASCII ranges the code actually handles.
* Python dicts that the code only reads through `.get` are modelled either as
  association lists (`alookup`) or as lookup functions `Str → Option Str`.
* Python floats carry a NaN value, so a scalar is `PyFloat` (`nan` or a
  rational); no claim depends on float rounding, only on NaN-ness and sign.
* Network and filesystem effects (HTTP posts, AkShare/Sina fetches, RSS
  parsing, clock) are passed in as explicit oracle arguments; the code around
  them (branching, fallbacks, request construction) is translated literally.
* Fallible calls (the `try/except` blocks around the two index fetchers and
  each RSS feed) are modelled with `Except`/`Option` arguments.
-/

/-- Python strings are modelled as lists of characters. -/
abbrev Str := List Char

/-- The character list of a Lean string literal. -/
def lit (s : String) : Str := s.data

/-- ASCII decimal digit, the characters matched by the regex class used in
`re.search(r"(\d{6})", s)` on the inputs the code handles. -/
def isDigitC (c : Char) : Bool := decide (48 ≤ c.toNat ∧ c.toNat ≤ 57)

/-- Whitespace stripped by `str.strip()` (ASCII fragment). -/
def isSpaceC (c : Char) : Bool :=
  decide (c.toNat = 32 ∨ c.toNat = 9 ∨ c.toNat = 10 ∨ c.toNat = 13 ∨
          c.toNat = 11 ∨ c.toNat = 12)

/-- `str.lower()` on the ASCII letters. -/
def toLowerC (c : Char) : Char :=
  if 65 ≤ c.toNat ∧ c.toNat ≤ 90 then Char.ofNat (c.toNat + 32) else c

/-- `s.strip()`: drop whitespace from both ends. -/
def stripL (s : Str) : Str :=
  ((s.dropWhile isSpaceC).reverse.dropWhile isSpaceC).reverse

/-- `s.lower()`. -/
def lowerL (s : Str) : Str := s.map toLowerC

/-- The six-digit window starting at the head of `t`, if there is one. -/
def sixAt (t : Str) : Option Str :=
  if (t.take 6).length = 6 ∧ (t.take 6).all isDigitC then some (t.take 6) else none

/-- `re.search(r"(\d{6})", s)`: the leftmost run of six consecutive digits. -/
def findSix : Str → Option Str
  | [] => none
  | c :: cs =>
    match sixAt (c :: cs) with
    | some x => some x
    | none => findSix cs

/-- The Shanghai-exchange number ranges tested by
`x.startswith(("600","601","603","605","688","689","900"))`. -/
def shRange (x : Str) : Bool :=
  [lit "600", lit "601", lit "603", lit "605", lit "688", lit "689",
   lit "900"].any (fun p => p.isPrefixOf x)

/-- `finance_morning.normalize_to_prefixed` (same body in `add_user.py`):
any shape of A-share code to the `sh`/`sz`-prefixed six-digit form. -/
def normalize_to_prefixed (code_like : Str) : Str :=
  if code_like = [] then []
  else
    match findSix (lowerL (stripL code_like)) with
    | none => []
    | some x =>
      if (lit "sh").isPrefixOf (lowerL (stripL code_like)) then lit "sh" ++ x
      else if (lit "sz").isPrefixOf (lowerL (stripL code_like)) then lit "sz" ++ x
      else if shRange x then lit "sh" ++ x
      else lit "sz" ++ x

/-- `web/app.py::norm_code`, the web app's reimplementation, translated from
its own source text (it is line for line the same algorithm). -/
def norm_code (code : Str) : Str :=
  if code = [] then []
  else
    match findSix (lowerL (stripL code)) with
    | none => []
    | some x =>
      if (lit "sh").isPrefixOf (lowerL (stripL code)) then lit "sh" ++ x
      else if (lit "sz").isPrefixOf (lowerL (stripL code)) then lit "sz" ++ x
      else if shRange x then lit "sh" ++ x
      else lit "sz" ++ x

/-- The normalization rule as the specification states it: on the lowercased,
stripped input, an existing `sh`/`sz` prefix is kept in front of the first
six-digit run, otherwise the exchange is chosen by the number ranges; no
six-digit run yields the empty string. -/
def normPrefixedSpec (s : Str) : Str :=
  match findSix (lowerL (stripL s)) with
  | none => []
  | some x =>
    if (lit "sh").isPrefixOf (lowerL (stripL s)) ∨ (lit "sz").isPrefixOf (lowerL (stripL s)) then
      (lowerL (stripL s)).take 2 ++ x
    else if shRange x then lit "sh" ++ x
    else lit "sz" ++ x

/-! ### main.py — secrets, .env loading, push channels, send loop -/

/-- First-match association-list lookup, the model of `dict.get` for the
small YAML dicts (their keys are unique). -/
def alookup : List (Str × Str) → Str → Option Str
  | [], _ => none
  | kv :: rest, k => if kv.1 = k then some kv.2 else alookup rest k

/-- `main.get_secret`: a value of the form `env:VAR` is resolved against the
environment map, anything else is used as plaintext; a missing key, a `None`
secrets dict or a falsy value gives the default. The environment map is the
lookup function produced by `load_env`. -/
def get_secret (secrets : Option (List (Str × Str))) (envmap : Str → Option Str)
    (key : Str) (default : Str) : Str :=
  let val := (alookup (secrets.getD []) key).getD []
  if (lit "env:").isPrefixOf val then
    (envmap (stripL (val.drop 4))).getD default
  else if val = [] then default else val

/-- The behaviour claimed for `get_secret`, stated the way the specification
reads: case split on the stored value first. -/
def getSecretSpec (secrets : Option (List (Str × Str))) (envmap : Str → Option Str)
    (key : Str) (default : Str) : Str :=
  match secrets with
  | none => default
  | some m =>
    match alookup m key with
    | none => default
    | some v =>
      if (lit "env:").isPrefixOf v then (envmap (stripL (v.drop 4))).getD default
      else if v = [] then default else v

/-- One line of the `.env` file: `KEY=VAL` after stripping, where blank lines,
`#` comments and lines without `=` are skipped (`main.load_env`'s loop body). -/
def parseEnvLine (line : Str) : Option (Str × Str) :=
  let s := stripL line
  if s = [] then none
  else if (lit "#").isPrefixOf s then none
  else if s.any (fun c => c = '=') then
    some (stripL (s.takeWhile (fun c => c ≠ '=')),
          stripL ((s.dropWhile (fun c => c ≠ '=')).drop 1))
  else none

/-- Functional update of a string-keyed map, the model of `dict.__setitem__`. -/
def insertEnv (m : Str → Option Str) (k v : Str) : Str → Option Str :=
  fun q => if q = k then some v else m q

/-- The map the `.env`-parsing loop of `load_env` builds before the
process environment is overlaid (`none` file: the file does not exist). -/
def envFileMap (file : Option (List Str)) : Str → Option Str :=
  match file with
  | none => fun _ => none
  | some lines =>
    lines.foldl
      (fun m line =>
        match parseEnvLine line with
        | none => m
        | some kv => insertEnv m kv.1 kv.2)
      (fun _ => none)

/-- `main.load_env` continued: `env.update(os.environ)` overlays every
process-environment pair on the parsed file map. -/
def load_env (file : Option (List Str)) (osenv : List (Str × Str)) :
    Str → Option Str :=
  osenv.foldl (fun m kv => insertEnv m kv.1 kv.2) (envFileMap file)

/-- The last binding of a key in an association list: the value a sequence of
`dict` insertions leaves in place. -/
def lastBinding : List (Str × Str) → Str → Option Str
  | [], _ => none
  | kv :: rest, k =>
    match lastBinding rest k with
    | some v => some v
    | none => if kv.1 = k then some kv.2 else none

/-- A `.env` line that `load_env` skips: blank after stripping, a `#` comment,
or no `=` sign. -/
def ignoredEnvLine (line : Str) : Bool :=
  stripL line = [] || (lit "#").isPrefixOf (stripL line) ||
    !((stripL line).any (fun c => c = '='))

/-- What the `.env` half of `load_env` holds for a key: the last `KEY=VAL`
line whose parsed key is the one looked up (claim-side description). -/
def envFileLookup (file : Option (List Str)) (k : Str) : Option Str :=
  match file with
  | none => none
  | some lines => lastBinding (lines.filterMap parseEnvLine) k

/-- An HTTP side effect: the status code and body text the server answers
with, keyed by the request URL (`requests.post`). -/
abbrev Net := Str → Int × Str

/-- `main.push_serverchan`. The third component is the list of HTTP requests
the call issues (empty when the guard returns early). -/
def push_serverchan (net : Net) (sendkey title markdown : Str) :
    Int × Str × List Str :=
  if sendkey = [] then (0, lit "No SendKey", [])
  else
    let url := lit "https://sctapi.ftqq.com/" ++ sendkey ++ lit ".send"
    let r := net url
    (r.1, r.2, [url])

/-- `main.push_telegram`. -/
def push_telegram (net : Net) (bot_token chat_id title markdown : Str) :
    Int × Str × List Str :=
  if bot_token = [] ∨ chat_id = [] then (0, lit "No TG creds", [])
  else
    let url := lit "https://api.telegram.org/bot" ++ bot_token ++ lit "/sendMessage"
    let r := net url
    (r.1, r.2, [url])

/-- `main.push_wecom`. -/
def push_wecom (net : Net) (webhook title markdown : Str) :
    Int × Str × List Str :=
  if webhook = [] then (0, lit "No WeCom webhook", [])
  else
    let r := net webhook
    (r.1, r.2, [webhook])

/-! ### finance_morning.py — market data, RSS, rendering, report -/

/-- A Python float as the fetchers produce it: NaN or a finite value
(finite values are modelled as rationals; no claim depends on rounding). -/
inductive PyFloat where
  | nan : PyFloat
  | num : ℚ → PyFloat
deriving DecidableEq

/-- `x >= 0` on a float: false for NaN. -/
def pyGe0 : PyFloat → Bool
  | .nan => false
  | .num q => decide (0 ≤ q)

/-- Round half to even, what `f"{x:.2f}"` does on the scaled value. -/
def roundHalfEven (q : ℚ) : Int :=
  let f := q.floor
  let r := q - f
  if 2 * r < 1 then f
  else if 1 < 2 * r then f + 1
  else if f % 2 = 0 then f else f + 1

/-- `f"{x:.2f}"` for a finite value: two decimal places. -/
def fmt2 (q : ℚ) : Str :=
  let m := roundHalfEven (q * 100)
  let a := m.natAbs
  (if m < 0 then lit "-" else []) ++ Nat.toDigits 10 (a / 100) ++ lit "." ++
    (if a % 100 < 10 then lit "0" else []) ++ Nat.toDigits 10 (a % 100)

/-- `f"{x:.2f}"` on any float (`"nan"` for NaN, as CPython prints it). -/
def fmtF : PyFloat → Str
  | .nan => lit "nan"
  | .num q => fmt2 q

/-- `finance_morning.pct`: `f"{x:.2f}%"`; floats never raise here, so the
`except` branch is unreachable for the float-valued fields this is applied to. -/
def pct (x : PyFloat) : Str := fmtF x ++ lit "%"

/-- One row of the index snapshot (`{"name": .., "price": .., "change_pct": ..}`). -/
structure IdxEntry where
  name : Str
  price : PyFloat
  change_pct : PyFloat
deriving DecidableEq

/-- The guard of the AkShare branch of `fetch_index_snapshot`: exactly three
rows, each with a numeric, non-NaN price. In this typed model every price is
a float, so the `isinstance` half of the guard is satisfied by construction. -/
def snapOk (out : List IdxEntry) : Bool :=
  out.length == 3 && out.all (fun x => match x.price with
    | .num _ => true
    | .nan => false)

/-- The three placeholder rows built when the Sina fallback raises too. -/
def placeholderIdx : List IdxEntry :=
  [{ name := lit "上证指数", price := .nan, change_pct := .nan },
   { name := lit "深证成指", price := .nan, change_pct := .nan },
   { name := lit "创业板指", price := .nan, change_pct := .nan }]

/-- `finance_morning.fetch_index_snapshot`, with the two network fetchers as
`Except`-valued oracles (`.error` is a raised exception, the body of each
helper being pure data plumbing on the remote payload). -/
def fetch_index_snapshot (akR sinaR : Except Unit (List IdxEntry)) : List IdxEntry :=
  match akR with
  | .ok out =>
    if snapOk out then out
    else
      match sinaR with
      | .ok l => l
      | .error _ => placeholderIdx
  | .error _ =>
    match sinaR with
    | .ok l => l
    | .error _ => placeholderIdx

/-- The northbound-money figure (`fetch_north_money`'s result shape). -/
structure North where
  date : Str
  north_net_in : Option PyFloat
deriving DecidableEq

/-- A watchlist quote row (`fetch_watchlist`'s result shape). -/
structure WRow where
  code : Str
  name : Str
  price : PyFloat
  change_pct : PyFloat
deriving DecidableEq

/-- A feed entry as `feedparser` hands it over: each attribute may be absent
(`getattr` with a default). -/
structure RawEntry where
  title : Option Str
  link : Option Str
  published : Option Str
  updated : Option Str
deriving DecidableEq

/-- A rendered RSS item (`fetch_rss`'s result shape). -/
structure RssItem where
  source : Str
  title : Str
  link : Str
  time : Str
deriving DecidableEq

/-- The per-feed loop of `fetch_rss`: append entries, incrementing `cnt` and
breaking once `cnt >= limit_per_feed` (so a limit of 0 still yields one
item, exactly as the Python loop does). -/
def rssLoop (lim : Nat) (url : Str) : List RawEntry → Nat → List RssItem
  | [], _ => []
  | e :: es, cnt =>
    { source := url,
      title := stripL (e.title.getD (lit "(no title)")),
      link := e.link.getD [],
      time := e.published.getD (e.updated.getD []) } ::
      (if cnt + 1 ≥ lim then [] else rssLoop lim url es (cnt + 1))

/-- `finance_morning.fetch_rss`: `parse` is the `feedparser.parse` oracle,
`none` meaning the fetch for that feed raised (the `except: continue`). -/
def fetch_rss (parse : Str → Option (List RawEntry)) (feeds : List Str)
    (limit_per_feed : Nat) : List RssItem :=
  (feeds.map (fun url =>
    match parse url with
    | none => []
    | some entries => rssLoop limit_per_feed url entries 0)).flatten

/-- `"🔺"` when the float is ≥ 0, `"🔻"` otherwise (NaN counts as negative,
since `nan >= 0` is false); the `isinstance` test holds for every float. -/
def arrowFor (cp : PyFloat) : Str :=
  if pyGe0 cp then lit "🔺" else lit "🔻"

/-- One line of the 大盘速览 section. -/
def idxLine (x : IdxEntry) : Str :=
  lit "- " ++ x.name ++ lit "：" ++ fmtF x.price ++ lit "（" ++
    arrowFor x.change_pct ++ lit " " ++ pct x.change_pct ++ lit "）\n"

/-- The 北向资金 section. -/
def northSection (north : North) : Str :=
  lit "## 北向资金\n" ++
    (match north.north_net_in with
     | some v =>
       lit "- " ++ north.date ++ lit ": " ++
         (if pyGe0 v then lit "🔺净流入" else lit "🔻净流出") ++
         lit " **" ++ fmtF v ++ lit " 亿元**\n\n"
     | none => lit "- 数据暂不可用\n\n")

/-- One line of the 自选股动向 section. -/
def wlLine (r : WRow) : Str :=
  lit "- " ++ r.name ++ lit "(" ++ r.code ++ lit ")：" ++ fmtF r.price ++
    lit "（" ++ arrowFor r.change_pct ++ lit " " ++ pct r.change_pct ++ lit "）\n"

/-- One line of the 新闻速读 section: newlines in the title become spaces,
then the title is stripped. -/
def rssLine (it : RssItem) : Str :=
  lit "- [" ++ stripL (it.title.map (fun c => if c = '\n' then ' ' else c)) ++
    lit "](" ++ it.link ++ lit ")\n"

/-- `finance_morning.render_markdown`, section by section in the order the
Python function writes them. -/
def render_markdown (gen_time : Str) (idx : List IdxEntry) (north : North)
    (watchlist : List WRow) (rss_items : List RssItem) (username : Str) : Str :=
  let pre := if username = [] then [] else username ++ lit "的"
  (lit "# 📈 " ++ pre ++ lit "每日财经早报（" ++ gen_time ++ lit "）\n\n") ++
    (lit "## 大盘速览\n" ++ (idx.map idxLine).flatten ++ lit "\n") ++
    northSection north ++
    (if watchlist = [] then []
     else lit "## 自选股动向\n" ++ (watchlist.map wlLine).flatten ++ lit "\n") ++
    (if rss_items = [] then []
     else lit "## 新闻速读（精选）\n" ++ (rss_items.map rssLine).flatten ++ lit "\n") ++
    lit "> 数据来源：交易所/公开RSS/akshare/新浪。仅作信息参考，不构成投资建议。\n"

/-- `finance_morning.pick_user_value`: the user's entry if the key is present
(even when falsy), else the defaults' entry, else the fallback. Key presence
is modelled by `Option`. -/
def pick_user_value {α : Type} (userv defaultv : Option α) (fallback : α) : α :=
  match userv with
  | some v => v
  | none =>
    match defaultv with
    | some v => v
    | none => fallback

/-- A user or defaults dict as `generate_report` reads it: each key may be
absent. -/
structure ConfMap where
  id : Option Str := none
  name : Option Str := none
  timezone : Option Str := none
  watchlist : Option (List Str) := none
  rss_feeds : Option (List Str) := none
  rss_limit : Option Nat := none

/-- The external effects `generate_report` performs, as one oracle bundle:
the clock (`now_str`, timezone name to formatted time), the two index
fetchers, the northbound-money result, the watchlist fetch (its AkShare
internals are not under claim) and the RSS parser. -/
structure FetchEnv where
  nowStr : Str → Str
  akR : Except Unit (List IdxEntry)
  sinaR : Except Unit (List IdxEntry)
  north : North
  watch : List Str → List WRow
  rssParse : Str → Option (List RawEntry)

/-- The `meta` dict `generate_report` returns. -/
structure Meta where
  gen_time : Str
  tz : Str
  watchlist_count : Nat
  rss_count : Nat
deriving DecidableEq

/-- `finance_morning.generate_report`. -/
def generate_report (F : FetchEnv) (user defaults : ConfMap) : Str × Meta :=
  let tzname := pick_user_value user.timezone defaults.timezone (lit "Asia/Shanghai")
  let wl := pick_user_value user.watchlist defaults.watchlist []
  let feeds := pick_user_value user.rss_feeds defaults.rss_feeds []
  let rslim := pick_user_value user.rss_limit defaults.rss_limit 6
  let gen_time := F.nowStr tzname
  let idx := fetch_index_snapshot F.akR F.sinaR
  let north := F.north
  let wlist := F.watch wl
  let rss := fetch_rss F.rssParse feeds rslim
  let uname :=
    match user.name with
    | some n => if n = [] then (user.id.getD []) else n
    | none => user.id.getD []
  let md := render_markdown gen_time idx north wlist rss uname
  (md, { gen_time := gen_time, tz := tzname,
         watchlist_count := wlist.length, rss_count := rss.length })

/-- The channels `main.main` dispatches on. -/
inductive Channel where
  | serverchan : Channel
  | telegram : Channel
  | wecom : Channel
deriving DecidableEq

/-- One entry of `users.yaml` as `main.main` reads it: the report-config keys,
the channel (absent or YAML `null` is `none`) and the secrets dict. -/
structure MUser where
  conf : ConfMap
  channel : Option Str := none
  secrets : Option (List (Str × Str)) := none

/-- `(u.get("channel") or "serverchan").lower()`. -/
def chanOf (u : MUser) : Str :=
  lowerL (match u.channel with
    | none => lit "serverchan"
    | some c => if c = [] then lit "serverchan" else c)

/-- The per-user body of `main.main`'s send loop: generate the digest, pick
the channel, resolve the credentials and call the matching push function.
`none` is the `未知渠道` branch, which sends nothing and appends nothing to
`results`. -/
def mainStep (F : FetchEnv) (net : Net) (envmap : Str → Option Str)
    (defaults : ConfMap) (u : MUser) :
    Option (Channel × (Int × Str × List Str)) :=
  let md := (generate_report F u.conf defaults).1
  let meta := (generate_report F u.conf defaults).2
  let title := lit "每日财经早报 | " ++ meta.gen_time
  let ch := chanOf u
  if ch = lit "serverchan" then
    let sendkey := get_secret u.secrets envmap (lit "SCT_SENDKEY") []
    some (.serverchan, push_serverchan net sendkey title md)
  else if ch = lit "telegram" then
    let token := get_secret u.secrets envmap (lit "BOT_TOKEN") []
    let chatid := get_secret u.secrets envmap (lit "CHAT_ID") []
    some (.telegram, push_telegram net token chatid title md)
  else if ch = lit "wecom" then
    let webhook := get_secret u.secrets envmap (lit "WEBHOOK") []
    some (.wecom, push_wecom net webhook title md)
  else none

/-- The `results` list of `main.main`: one status code per dispatched user. -/
def mainResults (F : FetchEnv) (net : Net) (envmap : Str → Option Str)
    (defaults : ConfMap) (users : List MUser) : List Int :=
  users.filterMap (fun u => (mainStep F net envmap defaults u).map (fun r => r.2.1))

/-- `ok = sum(1 for c in results if int(c) == 200)`. -/
def okCount (F : FetchEnv) (net : Net) (envmap : Str → Option Str)
    (defaults : ConfMap) (users : List MUser) : Nat :=
  (mainResults F net envmap defaults users).count 200

/-! ### web/app.py and web/models.py — store, export, mutations -/

/-- A `User` row of the dashboard's store (`web/models.py`). -/
structure DUser where
  id : Nat
  uid : Str
  name : Str
  password_hash : Str
  timezone : Str := lit "Asia/Shanghai"
  channel : Str := lit "serverchan"
  sct_sendkey : Option Str := none
  tg_bot_token : Option Str := none
  tg_chat_id : Option Str := none
  wecom_webhook : Option Str := none
deriving DecidableEq

/-- A `Watch` row. -/
structure DWatch where
  id : Nat
  user_id : Nat
  code : Str
deriving DecidableEq

/-- An `Rss` row. -/
structure DRss where
  id : Nat
  user_id : Nat
  url : Str
deriving DecidableEq

/-- The relational store the dashboard persists to. -/
structure DB where
  users : List DUser := []
  watches : List DWatch := []
  rss : List DRss := []
deriving DecidableEq

/-- Python truthiness of an optional string column. -/
def truthy : Option Str → Bool
  | none => false
  | some s => !s.isEmpty

/-- The `users.yaml` entry `export_users_yaml` builds for one user. -/
structure YEntry where
  id : Str
  name : Str
  timezone : Str
  channel : Str
  secrets : List (Str × Str)
  watchlist : List Str
  rss_feeds : List Str
deriving DecidableEq

/-- The per-user body of `export_users_yaml`: the four secret keys are added
in source order, each only when the channel matches and the column is
truthy. -/
def entryFor (db : DB) (u : DUser) : YEntry :=
  { id := u.uid,
    name := u.name,
    timezone := u.timezone,
    channel := u.channel,
    secrets :=
      (if u.channel = lit "serverchan" ∧ truthy u.sct_sendkey then
        [(lit "SCT_SENDKEY", u.sct_sendkey.getD [])] else []) ++
      (if u.channel = lit "telegram" ∧ truthy u.tg_bot_token then
        [(lit "BOT_TOKEN", u.tg_bot_token.getD [])] else []) ++
      (if u.channel = lit "telegram" ∧ truthy u.tg_chat_id then
        [(lit "CHAT_ID", u.tg_chat_id.getD [])] else []) ++
      (if u.channel = lit "wecom" ∧ truthy u.wecom_webhook then
        [(lit "WEBHOOK", u.wecom_webhook.getD [])] else []),
    watchlist := (db.watches.filter (fun w => w.user_id == u.id)).map DWatch.code,
    rss_feeds := (db.rss.filter (fun r => r.user_id == u.id)).map DRss.url }

/-- `web/app.py::export_users_yaml`: the list of entries written to
`users.yaml`, one per stored user in store order (the YAML serialization
itself is the external library call). -/
def export_users_yaml (db : DB) : List YEntry :=
  db.users.map (entryFor db)

/-- `web/app.py::add_watch` for a logged-in user `me`: normalize the code,
reject the empty result with HTTP 400, otherwise insert a `Watch` row
(`fresh` is the autoincrement id) and re-export. Returns the new store and
whether the row was added. -/
def add_watch (db : DB) (me : DUser) (code : Str) (fresh : Nat) : DB × Bool :=
  let c := norm_code code
  if c = [] then (db, false)
  else ({ db with watches := db.watches ++ [{ id := fresh, user_id := me.id, code := c }] }, true)

/-- The uid pattern of `register_post`: `re.fullmatch(r"[a-zA-Z0-9_\-]{2,32}", uid)`. -/
def isUidChar (c : Char) : Bool :=
  (97 ≤ c.toNat && c.toNat ≤ 122) || (65 ≤ c.toNat && c.toNat ≤ 90) ||
    (48 ≤ c.toNat && c.toNat ≤ 57) || c == '_' || c == '-'

/-- `re.fullmatch(r"[a-zA-Z0-9_\-]{2,32}", uid)` as a predicate. -/
def validUid (s : Str) : Bool :=
  decide (2 ≤ s.length) && decide (s.length ≤ 32) && s.all isUidChar

/-- The three outcomes of `register_post`: redirect to the dashboard, or the
registration page with one of the two error messages. -/
inductive RegOutcome where
  | ok : RegOutcome
  | errFormat : RegOutcome
  | errExists : RegOutcome
deriving DecidableEq

/-- `web/app.py::register_post`: strip the uid, validate it, reject a
duplicate, otherwise persist a `User` row with the model defaults
(`hash` is `bcrypt.hash`, `fresh` the autoincrement id). -/
def register_post (db : DB) (hash : Str → Str) (fresh : Nat)
    (uid name password : Str) : DB × RegOutcome :=
  let u := stripL uid
  if !validUid u then (db, .errFormat)
  else if db.users.any (fun x => x.uid == u) then (db, .errExists)
  else
    ({ db with users := db.users ++
        [{ id := fresh, uid := u,
           name := if stripL name = [] then u else stripL name,
           password_hash := hash password }] }, .ok)

/-! ### Concrete fixtures used by the closed witness statements -/

/-- A fetch oracle where every external source fails or is empty. -/
def sampleF : FetchEnv :=
  { nowStr := fun _ => [],
    akR := .error (),
    sinaR := .error (),
    north := { date := [], north_net_in := none },
    watch := fun _ => [],
    rssParse := fun _ => none }

/-- A network oracle that answers every request with HTTP 200. -/
def sampleNet : Net := fun _ => (200, [])

/-- An empty environment map. -/
def sampleEnv : Str → Option Str := fun _ => none

/-- A user with an unrecognized channel value. -/
def sampleUserSms : MUser := { conf := {}, channel := some (lit "sms") }

/-- A user on the default channel with no secrets configured. -/
def sampleUserNoKey : MUser := { conf := {} }

/-- A one-user store for the export witness: a Telegram user with both
Telegram credentials, one watch row of their own (and a stray row of another
user id), and one feed. -/
def sampleDb : DB :=
  { users := [{ id := 1, uid := lit "eva", name := lit "Eva",
                password_hash := lit "h", channel := lit "telegram",
                tg_bot_token := some (lit "tok"), tg_chat_id := some (lit "chat") }],
    watches := [{ id := 1, user_id := 1, code := lit "sh600519" },
                { id := 2, user_id := 2, code := lit "sz000858" }],
    rss := [{ id := 1, user_id := 1, url := lit "https://a" }] }

/-! ### Character-level facts -/

theorem toNat_ofNat_of_lt {n : Nat} (h : n < 55296) : (Char.ofNat n).toNat = n := by
  have hv : n.isValidChar := Or.inl h
  simp only [Char.ofNat, hv, dif_pos, Char.ofNatAux, Char.toNat, UInt32.toNat]
  rfl

theorem isDigitC_toLowerC (c : Char) : isDigitC (toLowerC c) = isDigitC c := by
  unfold toLowerC
  by_cases h : 65 ≤ c.toNat ∧ c.toNat ≤ 90
  · rw [if_pos h]
    have h2 : (Char.ofNat (c.toNat + 32)).toNat = c.toNat + 32 :=
      toNat_ofNat_of_lt (by omega)
    simp only [isDigitC, h2, decide_eq_decide]
    omega
  · rw [if_neg h]

theorem toLowerC_of_isDigitC {c : Char} (h : isDigitC c = true) : toLowerC c = c := by
  unfold toLowerC
  simp only [isDigitC, decide_eq_true_eq] at h
  rw [if_neg (by omega)]

theorem isDigitC_of_isSpaceC {c : Char} (h : isSpaceC c = true) : isDigitC c = false := by
  simp only [isSpaceC, decide_eq_true_eq] at h
  simp only [isDigitC, decide_eq_false_iff_not]
  omega

theorem isSpaceC_of_isDigitC {c : Char} (h : isDigitC c = true) : isSpaceC c = false := by
  simp only [isDigitC, decide_eq_true_eq] at h
  simp only [isSpaceC, decide_eq_false_iff_not]
  omega

/-! ### Facts about the six-digit search -/

theorem findSix_cons (a : Char) (l : Str) :
    findSix (a :: l) = match sixAt (a :: l) with
      | some x => some x
      | none => findSix l := rfl

theorem sixAt_cons_of_not_digit {c : Char} (cs : Str) (h : isDigitC c = false) :
    sixAt (c :: cs) = none := by
  simp [sixAt, h]

theorem findSix_cons_of_not_digit {c : Char} (cs : Str) (h : isDigitC c = false) :
    findSix (c :: cs) = findSix cs := by
  rw [findSix_cons, sixAt_cons_of_not_digit cs h]

theorem findSix_eq_none {u : Str} (h : ∀ c ∈ u, isDigitC c = false) :
    findSix u = none := by
  induction u with
  | nil => rfl
  | cons c cs ih =>
    rw [findSix_cons_of_not_digit cs (h c (List.mem_cons_self c cs))]
    exact ih (fun d hd => h d (List.mem_cons_of_mem c hd))

theorem findSix_shape {u x : Str} (h : findSix u = some x) :
    x.length = 6 ∧ x.all isDigitC = true := by
  induction u with
  | nil => simp [findSix] at h
  | cons c cs ih =>
    rw [findSix_cons] at h
    revert h
    unfold sixAt
    by_cases hc : ((c :: cs).take 6).length = 6 ∧ ((c :: cs).take 6).all isDigitC
    · rw [if_pos hc]
      intro h
      cases h
      exact ⟨hc.1, hc.2⟩
    · rw [if_neg hc]
      exact ih

theorem findSix_append_of_no_digit {w : Str} (hw : ∀ c ∈ w, isDigitC c = false) :
    ∀ v : Str, findSix (v ++ w) = findSix v := by
  intro v
  induction v with
  | nil => simpa using findSix_eq_none hw
  | cons c v ih =>
    by_cases hc : isDigitC c = true
    · rw [List.cons_append, findSix_cons, findSix_cons]
      by_cases hlen : 6 ≤ (c :: v).length
      · have htake : List.take 6 (c :: (v ++ w)) = List.take 6 (c :: v) := by
          rw [← List.cons_append, List.take_append_eq_append_take,
              Nat.sub_eq_zero_of_le hlen, List.take_zero, List.append_nil]
        unfold sixAt
        rw [htake]
        split_ifs
        · rfl
        · exact ih
      · have h1 : sixAt (c :: v) = none := by
          unfold sixAt
          rw [if_neg]
          intro hcontra
          have := hcontra.1
          rw [List.length_take] at this
          omega
        have h2 : sixAt (c :: (v ++ w)) = none := by
          unfold sixAt
          rw [if_neg]
          intro hcontra
          obtain ⟨hclen, hcall⟩ := hcontra
          rw [← List.cons_append, List.take_append_eq_append_take] at hclen hcall
          rw [List.length_append, List.length_take] at hclen
          have hlt : (c :: v).length < 6 := by omega
          have hwtake : 0 < (w.take (6 - (c :: v).length)).length := by
            rw [List.length_take] at hclen ⊢
            omega
          obtain ⟨d, hd⟩ := List.exists_mem_of_length_pos hwtake
          have hdw : d ∈ w := List.mem_of_mem_take hd
          have hdig : isDigitC d = true := by
            rw [List.all_append, Bool.and_eq_true] at hcall
            exact List.all_eq_true.mp hcall.2 d hd
          rw [hw d hdw] at hdig
          exact Bool.false_ne_true hdig
        rw [h1, h2]
        exact ih
    · rw [List.cons_append,
          findSix_cons_of_not_digit _ (Bool.eq_false_iff.mpr hc),
          findSix_cons_of_not_digit _ (Bool.eq_false_iff.mpr hc)]
      exact ih

theorem lowerL_eq_self {u : Str} (h : ∀ c ∈ u, toLowerC c = c) : lowerL u = u := by
  induction u with
  | nil => rfl
  | cons c cs ih =>
    simp only [lowerL, List.map_cons] at ih ⊢
    rw [h c (List.mem_cons_self c cs), ih (fun d hd => h d (List.mem_cons_of_mem c hd))]

theorem sixAt_lowerL (t : Str) : sixAt (lowerL t) = sixAt t := by
  unfold sixAt
  have hm : (lowerL t).take 6 = lowerL (t.take 6) := by
    unfold lowerL
    rw [List.map_take]
  have hlen : (lowerL (t.take 6)).length = (t.take 6).length := by
    unfold lowerL
    rw [List.length_map]
  have hall : (lowerL (t.take 6)).all isDigitC = (t.take 6).all isDigitC := by
    unfold lowerL
    rw [List.all_map]
    simp only [Function.comp_def, isDigitC_toLowerC]
  rw [hm, hlen, hall]
  split_ifs with hc
  · have hfix : lowerL (t.take 6) = t.take 6 :=
      lowerL_eq_self (fun c hcm =>
        toLowerC_of_isDigitC (List.all_eq_true.mp hc.2 c hcm))
    rw [hfix]
  · rfl

theorem findSix_lowerL (u : Str) : findSix (lowerL u) = findSix u := by
  induction u with
  | nil => rfl
  | cons c cs ih =>
    show findSix (toLowerC c :: lowerL cs) = findSix (c :: cs)
    rw [findSix_cons, findSix_cons]
    have hs : sixAt (toLowerC c :: lowerL cs) = sixAt (c :: cs) := by
      have := sixAt_lowerL (c :: cs)
      simpa only [lowerL, List.map_cons] using this
    rw [hs]
    cases sixAt (c :: cs) <;> simp [ih]

theorem findSix_dropWhile_space (u : Str) :
    findSix (u.dropWhile isSpaceC) = findSix u := by
  induction u with
  | nil => rfl
  | cons c cs ih =>
    by_cases hc : isSpaceC c = true
    · rw [List.dropWhile_cons_of_pos hc, ih,
          findSix_cons_of_not_digit cs (isDigitC_of_isSpaceC hc)]
    · rw [List.dropWhile_cons_of_neg (by simpa using hc)]

theorem findSix_stripL (u : Str) : findSix (stripL u) = findSix u := by
  have hsplit : (u.dropWhile isSpaceC).reverse.takeWhile isSpaceC ++
      (u.dropWhile isSpaceC).reverse.dropWhile isSpaceC = (u.dropWhile isSpaceC).reverse :=
    List.takeWhile_append_dropWhile _ _
  have hdec : u.dropWhile isSpaceC =
      stripL u ++ ((u.dropWhile isSpaceC).reverse.takeWhile isSpaceC).reverse := by
    have h1 : u.dropWhile isSpaceC =
        ((u.dropWhile isSpaceC).reverse.takeWhile isSpaceC ++
         (u.dropWhile isSpaceC).reverse.dropWhile isSpaceC).reverse := by
      rw [hsplit, List.reverse_reverse]
    rw [List.reverse_append] at h1
    exact h1
  have hnd : ∀ c ∈ ((u.dropWhile isSpaceC).reverse.takeWhile isSpaceC).reverse,
      isDigitC c = false := by
    intro c hcm
    exact isDigitC_of_isSpaceC (List.mem_takeWhile_imp (List.mem_reverse.mp hcm))
  calc findSix (stripL u)
      = findSix (stripL u ++ ((u.dropWhile isSpaceC).reverse.takeWhile isSpaceC).reverse) :=
        (findSix_append_of_no_digit hnd _).symm
    _ = findSix (u.dropWhile isSpaceC) := by rw [← hdec]
    _ = findSix u := findSix_dropWhile_space u

theorem dropWhile_eq_self_of {p : Char → Bool} {u : Str}
    (h : ∀ c ∈ u, p c = false) : u.dropWhile p = u := by
  cases u with
  | nil => rfl
  | cons c cs =>
    exact List.dropWhile_cons_of_neg (by simp [h c (List.mem_cons_self c cs)])

theorem stripL_eq_self {u : Str} (h : ∀ c ∈ u, isSpaceC c = false) :
    stripL u = u := by
  unfold stripL
  rw [dropWhile_eq_self_of h,
      dropWhile_eq_self_of (fun c hc => h c (List.mem_reverse.mp hc)),
      List.reverse_reverse]

theorem take_two_of_prefix {p t : Str} (hlen : p.length = 2) (h : p <+: t) :
    t.take 2 = p := by
  obtain ⟨t2, ht⟩ := h
  rw [← ht, List.take_append_eq_append_take, hlen]
  simp [← hlen]

/-- The six digits found in a `sh`/`sz`-prefixed six-digit string are exactly
its digit part, and normalization returns such a string unchanged. -/
theorem normalize_of_prefixed {p x : Str} (hp : p = lit "sh" ∨ p = lit "sz")
    (hx6 : x.length = 6) (hxd : x.all isDigitC = true) :
    normalize_to_prefixed (p ++ x) = p ++ x := by
  have hmemx : ∀ c ∈ x, isDigitC c = true := List.all_eq_true.mp hxd
  have hne : p ++ x ≠ [] := by
    rcases hp with h | h <;> subst h <;> simp [lit]
  have hnosp : ∀ c ∈ p ++ x, isSpaceC c = false := by
    intro c hc
    rcases List.mem_append.mp hc with h | h
    · rcases hp with hp | hp
      · subst hp; exact (by decide : ∀ d ∈ lit "sh", isSpaceC d = false) c h
      · subst hp; exact (by decide : ∀ d ∈ lit "sz", isSpaceC d = false) c h
    · exact isSpaceC_of_isDigitC (hmemx c h)
  have hstrip : stripL (p ++ x) = p ++ x := stripL_eq_self hnosp
  have hlower : lowerL (p ++ x) = p ++ x := by
    apply lowerL_eq_self
    intro c hc
    rcases List.mem_append.mp hc with h | h
    · rcases hp with hp | hp
      · subst hp; exact (by decide : ∀ d ∈ lit "sh", toLowerC d = d) c h
      · subst hp; exact (by decide : ∀ d ∈ lit "sz", toLowerC d = d) c h
    · exact toLowerC_of_isDigitC (hmemx c h)
  have hfind : findSix (p ++ x) = some x := by
    have hxfind : findSix x = some x := by
      cases x with
      | nil => simp at hx6
      | cons a as =>
        rw [findSix_cons]
        have hsix : sixAt (a :: as) = some (a :: as) := by
          unfold sixAt
          have ht : (a :: as).take 6 = a :: as := by
            rw [← hx6]; exact List.take_length _
          rw [ht, if_pos ⟨hx6, hxd⟩]
        rw [hsix]
    rcases hp with hp | hp <;> subst hp
    · show findSix ('s' :: 'h' :: x) = some x
      rw [findSix_cons_of_not_digit _ (by decide),
          findSix_cons_of_not_digit _ (by decide)]
      exact hxfind
    · show findSix ('s' :: 'z' :: x) = some x
      rw [findSix_cons_of_not_digit _ (by decide),
          findSix_cons_of_not_digit _ (by decide)]
      exact hxfind
  unfold normalize_to_prefixed
  rw [if_neg hne]
  simp only [hstrip, hlower, hfind]
  rcases hp with hp | hp <;> subst hp
  · rw [if_pos (List.isPrefixOf_iff_prefix.mpr ⟨x, rfl⟩)]
  · have hnotsh : ¬((lit "sh").isPrefixOf (lit "sz" ++ x) = true) := by
      intro hb
      obtain ⟨t2, ht⟩ := List.isPrefixOf_iff_prefix.mp hb
      simp [lit] at ht
    rw [if_neg hnotsh, if_pos (List.isPrefixOf_iff_prefix.mpr ⟨x, rfl⟩)]

/-- C1 -- `normalize_to_prefixed` (and its web-app twin `norm_code`) maps any
input to the first six-digit run of the lowercased, stripped input prefixed
with `sh`/`sz`: an existing `sh`/`sz` prefix is kept, otherwise the
600/601/603/605/688/689/900 ranges pick `sh` and everything else `sz`; an
input whose (lowercased, stripped) form contains no six-digit run -- in
particular the empty input -- maps to the empty string, and stripping and
lowercasing do not change which six-digit run is found. -/
theorem normalize_to_prefixed_matches_spec (s : Str) :
    normalize_to_prefixed s = normPrefixedSpec s ∧
    norm_code s = normalize_to_prefixed s ∧
    findSix (lowerL (stripL s)) = findSix s := by
  refine ⟨?_, rfl, (findSix_lowerL _).trans (findSix_stripL _)⟩
  by_cases hs : s = []
  · subst hs; rfl
  · unfold normalize_to_prefixed normPrefixedSpec
    rw [if_neg hs]
    cases hf : findSix (lowerL (stripL s)) with
    | none => rfl
    | some x =>
      simp only []
      by_cases h1 : (lit "sh").isPrefixOf (lowerL (stripL s)) = true
      · rw [if_pos h1, if_pos (Or.inl h1),
            take_two_of_prefix (by decide) (List.isPrefixOf_iff_prefix.mp h1)]
      · by_cases h2 : (lit "sz").isPrefixOf (lowerL (stripL s)) = true
        · rw [if_neg h1, if_pos h2, if_pos (Or.inr h2),
              take_two_of_prefix (by decide) (List.isPrefixOf_iff_prefix.mp h2)]
        · have hno : ¬((lit "sh").isPrefixOf (lowerL (stripL s)) = true ∨
              (lit "sz").isPrefixOf (lowerL (stripL s)) = true) := by
            rintro (h | h) <;> contradiction
          rw [if_neg h1, if_neg h2, if_neg hno]

/-- C8 -- shape soundness and idempotence of `normalize_to_prefixed`: every
output is empty or `sh`/`sz` followed by exactly six digits, and the function
is idempotent. -/
theorem normalize_to_prefixed_shape_idempotent (s : Str) :
    (normalize_to_prefixed s = [] ∨
      ∃ x : Str, x.length = 6 ∧ x.all isDigitC = true ∧
        (normalize_to_prefixed s = lit "sh" ++ x ∨
         normalize_to_prefixed s = lit "sz" ++ x)) ∧
    normalize_to_prefixed (normalize_to_prefixed s) = normalize_to_prefixed s := by
  have hshape : normalize_to_prefixed s = [] ∨
      ∃ x : Str, x.length = 6 ∧ x.all isDigitC = true ∧
        (normalize_to_prefixed s = lit "sh" ++ x ∨
         normalize_to_prefixed s = lit "sz" ++ x) := by
    by_cases hs : s = []
    · left; subst hs; rfl
    · unfold normalize_to_prefixed
      rw [if_neg hs]
      cases hf : findSix (lowerL (stripL s)) with
      | none => left; rfl
      | some x =>
        obtain ⟨h6, hd⟩ := findSix_shape hf
        right
        refine ⟨x, h6, hd, ?_⟩
        simp only []
        split_ifs <;> simp
  refine ⟨hshape, ?_⟩
  rcases hshape with h | ⟨x, h6, hd, h | h⟩
  · rw [h]; rfl
  · rw [h]; exact normalize_of_prefixed (Or.inl rfl) h6 hd
  · rw [h]; exact normalize_of_prefixed (Or.inr rfl) h6 hd

/-- C2 -- `get_secret` resolves `env:VAR` indirections against the
environment map (default when the variable is absent) and otherwise returns
the stored plaintext, with the default for a missing key, a `None` secrets
dict, or a falsy value. -/
theorem get_secret_matches_spec (secrets : Option (List (Str × Str)))
    (envmap : Str → Option Str) (key default : Str) :
    get_secret secrets envmap key default = getSecretSpec secrets envmap key default := by
  cases secrets with
  | none =>
    simp [get_secret, getSecretSpec, alookup,
      (by decide : (lit "env:").isPrefixOf ([] : Str) = false)]
  | some m =>
    cases hl : alookup m key with
    | none =>
      simp [get_secret, getSecretSpec, hl,
        (by decide : (lit "env:").isPrefixOf ([] : Str) = false)]
    | some v =>
      simp [get_secret, getSecretSpec, hl]

theorem foldl_insertEnv (l : List (Str × Str)) (m : Str → Option Str) (k : Str) :
    (l.foldl (fun m kv => insertEnv m kv.1 kv.2) m) k =
      match lastBinding l k with
      | some v => some v
      | none => m k := by
  induction l generalizing m with
  | nil => rfl
  | cons kv rest ih =>
    rw [List.foldl_cons, ih]
    simp only [lastBinding]
    cases lastBinding rest k with
    | some v => rfl
    | none =>
      unfold insertEnv
      by_cases h : kv.1 = k
      · rw [if_pos h.symm, if_pos h]
      · rw [if_neg (fun hh => h hh.symm), if_neg h]

theorem foldl_parseEnv (lines : List Str) (m : Str → Option Str) (k : Str) :
    (lines.foldl
      (fun m line =>
        match parseEnvLine line with
        | none => m
        | some kv => insertEnv m kv.1 kv.2) m) k =
      match lastBinding (lines.filterMap parseEnvLine) k with
      | some v => some v
      | none => m k := by
  induction lines generalizing m with
  | nil => rfl
  | cons l rest ih =>
    rw [List.foldl_cons, List.filterMap_cons]
    cases hp : parseEnvLine l with
    | none => simp only [hp]; exact ih m
    | some kv =>
      simp only [hp]
      rw [ih]
      simp only [lastBinding]
      cases lastBinding (rest.filterMap parseEnvLine) k with
      | some v => rfl
      | none =>
        unfold insertEnv
        by_cases h : kv.1 = k
        · rw [if_pos h.symm, if_pos h]
        · rw [if_neg (fun hh => h hh.symm), if_neg h]

theorem parseEnvLine_of_ignored {j : Str} (hj : ignoredEnvLine j = true) :
    parseEnvLine j = none := by
  unfold ignoredEnvLine at hj
  unfold parseEnvLine
  by_cases h1 : stripL j = []
  · rw [if_pos h1]
  · rw [if_neg h1]
    by_cases h2 : (lit "#").isPrefixOf (stripL j) = true
    · rw [if_pos h2]
    · rw [if_neg h2]
      have h3 : (stripL j).any (fun c => c = '=') = false := by
        simp only [Bool.or_eq_true] at hj
        rcases hj with (h | h) | h
        · exact absurd (by simpa using h) h1
        · exact absurd h h2
        · simpa using h
      rw [if_neg (by simp [h3])]

/-- C9 -- `load_env` precedence: a key bound in the process environment gets
the process-environment value; only keys absent there fall back to the last
matching `KEY=VAL` line of the `.env` file; blank lines, `#` comments and
lines without `=` never affect the result. -/
theorem load_env_precedence (file : Option (List Str)) (osenv : List (Str × Str))
    (k : Str) :
    (∀ v, lastBinding osenv k = some v → load_env file osenv k = some v) ∧
    (lastBinding osenv k = none → load_env file osenv k = envFileLookup file k) ∧
    (∀ pre post j, ignoredEnvLine j = true →
      load_env (some (pre ++ j :: post)) osenv k =
        load_env (some (pre ++ post)) osenv k) := by
  have heval : ∀ f : Option (List Str), load_env f osenv k =
      match lastBinding osenv k with
      | some v => some v
      | none => envFileMap f k :=
    fun f => foldl_insertEnv osenv (envFileMap f) k
  have hfm : ∀ f : Option (List Str), envFileMap f k = envFileLookup f k := by
    intro f
    cases f with
    | none => rfl
    | some lines =>
      simp only [envFileMap, envFileLookup]
      rw [foldl_parseEnv]
      cases lastBinding (lines.filterMap parseEnvLine) k <;> rfl
  refine ⟨?_, ?_, ?_⟩
  · intro v hv
    rw [heval, hv]
  · intro h0
    rw [heval, h0, hfm]
  · intro pre post j hj
    have hstep : envFileMap (some (pre ++ j :: post)) = envFileMap (some (pre ++ post)) := by
      simp only [envFileMap]
      rw [List.foldl_append, List.foldl_append, List.foldl_cons,
          parseEnvLine_of_ignored hj]
    unfold load_env
    rw [hstep]

/-- C9 witness: a key set in both places resolves to the process-environment
value, junk lines being ignored. -/
theorem load_env_precedence_witness :
    load_env (some [lit "A=2", lit "# note", lit "B=3"]) [(lit "A", lit "1")]
        (lit "A") = some (lit "1") ∧
    load_env (some [lit "A=2"]) [] (lit "A") = envFileLookup (some [lit "A=2"]) (lit "A") ∧
    load_env (some ([lit "A=2"] ++ lit "# c" :: [lit "B=3"])) [] (lit "B") =
      load_env (some ([lit "A=2"] ++ [lit "B=3"])) [] (lit "B") :=
  ⟨(load_env_precedence (some [lit "A=2", lit "# note", lit "B=3"])
      [(lit "A", lit "1")] (lit "A")).1 (lit "1") (by decide),
   (load_env_precedence (some [lit "A=2"]) [] (lit "A")).2.1 (by decide),
   (load_env_precedence (some [lit "A=2"]) [] (lit "B")).2.2
      [lit "A=2"] [lit "B=3"] (lit "# c") (by decide)⟩

/-- C4 -- `fetch_index_snapshot` is total (it returns a plain list for every
oracle outcome) and falls back as claimed: the AkShare snapshot is used
exactly when it has three rows with non-NaN numeric prices, otherwise the
Sina result, and when the Sina fetch raises too the three named placeholder
rows with NaN price and NaN change are returned. -/
theorem fetch_index_snapshot_fallback (akR sinaR : Except Unit (List IdxEntry)) :
    (∀ out, akR = .ok out → snapOk out = true →
      fetch_index_snapshot akR sinaR = out) ∧
    (∀ out l, akR = .ok out → snapOk out = false → sinaR = .ok l →
      fetch_index_snapshot akR sinaR = l) ∧
    (∀ l, akR = .error () → sinaR = .ok l →
      fetch_index_snapshot akR sinaR = l) ∧
    ((akR = .error () ∨ ∃ out, akR = .ok out ∧ snapOk out = false) →
      sinaR = .error () →
      fetch_index_snapshot akR sinaR =
        [{ name := lit "上证指数", price := .nan, change_pct := .nan },
         { name := lit "深证成指", price := .nan, change_pct := .nan },
         { name := lit "创业板指", price := .nan, change_pct := .nan }]) ∧
    (∀ out : List IdxEntry,
      snapOk out = true ↔ (out.length = 3 ∧ ∀ x ∈ out, x.price ≠ .nan)) := by
  refine ⟨?_, ?_, ?_, ?_, ?_⟩
  · intro out hak hok
    subst hak
    simp [fetch_index_snapshot, hok]
  · intro out l hak hok hsina
    subst hak; subst hsina
    simp [fetch_index_snapshot, hok]
  · intro l hak hsina
    subst hak; subst hsina
    simp [fetch_index_snapshot]
  · intro hbad hsina
    subst hsina
    rcases hbad with hak | ⟨out, hak, hok⟩
    · subst hak
      simp [fetch_index_snapshot, placeholderIdx]
    · subst hak
      simp [fetch_index_snapshot, placeholderIdx, hok]
  · intro out
    simp only [snapOk, Bool.and_eq_true, beq_iff_eq, List.all_eq_true]
    constructor
    · rintro ⟨h3, hall⟩
      refine ⟨h3, fun x hx => ?_⟩
      have hx2 := hall x hx
      cases hp : x.price with
      | nan => rw [hp] at hx2; simp at hx2
      | num q => simp [hp]
    · rintro ⟨h3, hall⟩
      refine ⟨h3, fun x hx => ?_⟩
      cases hp : x.price with
      | nan => exact absurd hp (hall x hx)
      | num q => rfl

/-- C4 witness: AkShare returns an empty (hence bad) snapshot and Sina
raises, so the placeholders come back. -/
theorem fetch_index_snapshot_fallback_witness :
    fetch_index_snapshot (Except.ok []) (Except.error ()) =
      [{ name := lit "上证指数", price := .nan, change_pct := .nan },
       { name := lit "深证成指", price := .nan, change_pct := .nan },
       { name := lit "创业板指", price := .nan, change_pct := .nan }] :=
  (fetch_index_snapshot_fallback (Except.ok []) (Except.error ())).2.2.2.1
    (Or.inr ⟨[], rfl, rfl⟩) rfl

/-- C3 -- the send loop dispatches each user to exactly one channel, chosen
by the lowercased channel field (`serverchan` when the field is missing or
empty), and a user with any other channel value is sent nothing and
contributes nothing to the success count. -/
theorem main_channel_dispatch (F : FetchEnv) (net : Net)
    (envmap : Str → Option Str) (defaults : ConfMap) (u : MUser) :
    (u.channel = none → chanOf u = lit "serverchan") ∧
    (u.channel = some [] → chanOf u = lit "serverchan") ∧
    (chanOf u = lit "serverchan" →
      mainStep F net envmap defaults u =
        some (.serverchan, push_serverchan net
          (get_secret u.secrets envmap (lit "SCT_SENDKEY") [])
          (lit "每日财经早报 | " ++ (generate_report F u.conf defaults).2.gen_time)
          ((generate_report F u.conf defaults).1))) ∧
    (chanOf u = lit "telegram" →
      mainStep F net envmap defaults u =
        some (.telegram, push_telegram net
          (get_secret u.secrets envmap (lit "BOT_TOKEN") [])
          (get_secret u.secrets envmap (lit "CHAT_ID") [])
          (lit "每日财经早报 | " ++ (generate_report F u.conf defaults).2.gen_time)
          ((generate_report F u.conf defaults).1))) ∧
    (chanOf u = lit "wecom" →
      mainStep F net envmap defaults u =
        some (.wecom, push_wecom net
          (get_secret u.secrets envmap (lit "WEBHOOK") [])
          (lit "每日财经早报 | " ++ (generate_report F u.conf defaults).2.gen_time)
          ((generate_report F u.conf defaults).1))) ∧
    (chanOf u ≠ lit "serverchan" → chanOf u ≠ lit "telegram" →
      chanOf u ≠ lit "wecom" →
      mainStep F net envmap defaults u = none ∧
      ∀ us₁ us₂, okCount F net envmap defaults (us₁ ++ u :: us₂) =
        okCount F net envmap defaults (us₁ ++ us₂)) := by
  refine ⟨?_, ?_, ?_, ?_, ?_, ?_⟩
  · intro h; simp [chanOf, h]; decide
  · intro h; simp [chanOf, h]; decide
  · intro h
    simp only [mainStep]
    rw [if_pos h]
  · intro h
    simp only [mainStep]
    rw [if_neg (by rw [h]; decide), if_pos h]
  · intro h
    simp only [mainStep]
    rw [if_neg (by rw [h]; decide), if_neg (by rw [h]; decide), if_pos h]
  · intro h1 h2 h3
    have hnone : mainStep F net envmap defaults u = none := by
      simp only [mainStep]
      rw [if_neg h1, if_neg h2, if_neg h3]
    refine ⟨hnone, fun us₁ us₂ => ?_⟩
    simp [okCount, mainResults, List.filterMap_append, List.filterMap_cons, hnone]

/-- C3 witness: a user whose channel is `sms` is skipped and changes no
success count. -/
theorem main_channel_dispatch_witness :
    mainStep sampleF sampleNet sampleEnv {} sampleUserSms = none ∧
    okCount sampleF sampleNet sampleEnv {} ([] ++ sampleUserSms :: []) =
      okCount sampleF sampleNet sampleEnv {} ([] ++ []) := by
  have h := (main_channel_dispatch sampleF sampleNet sampleEnv {}
    sampleUserSms).2.2.2.2.2 (by decide) (by decide) (by decide)
  exact ⟨h.1, h.2 [] []⟩

/-- C10 -- each push function returns status 0 with a descriptive message
and issues no HTTP request when its credential is empty, and such a user
never adds to `main`'s success count (which only counts status 200). -/
theorem push_empty_credentials (net : Net) (title markdown : Str) :
    push_serverchan net [] title markdown = (0, lit "No SendKey", []) ∧
    (∀ chat_id, push_telegram net [] chat_id title markdown =
      (0, lit "No TG creds", [])) ∧
    (∀ bot_token, push_telegram net bot_token [] title markdown =
      (0, lit "No TG creds", [])) ∧
    push_wecom net [] title markdown = (0, lit "No WeCom webhook", []) ∧
    (∀ F envmap defaults (u : MUser) us₁ us₂,
      chanOf u = lit "serverchan" →
      get_secret u.secrets envmap (lit "SCT_SENDKEY") [] = [] →
      okCount F net envmap defaults (us₁ ++ u :: us₂) =
        okCount F net envmap defaults (us₁ ++ us₂)) ∧
    (∀ F envmap defaults (u : MUser) us₁ us₂,
      chanOf u = lit "telegram" →
      (get_secret u.secrets envmap (lit "BOT_TOKEN") [] = [] ∨
       get_secret u.secrets envmap (lit "CHAT_ID") [] = []) →
      okCount F net envmap defaults (us₁ ++ u :: us₂) =
        okCount F net envmap defaults (us₁ ++ us₂)) ∧
    (∀ F envmap defaults (u : MUser) us₁ us₂,
      chanOf u = lit "wecom" →
      get_secret u.secrets envmap (lit "WEBHOOK") [] = [] →
      okCount F net envmap defaults (us₁ ++ u :: us₂) =
        okCount F net envmap defaults (us₁ ++ us₂)) := by
  refine ⟨rfl, fun _ => rfl, ?_, rfl, ?_, ?_, ?_⟩
  · intro bot_token
    simp [push_telegram]
  · intro F envmap defaults u us₁ us₂ hch hsec
    have hstep : mainStep F net envmap defaults u =
        some (.serverchan, (0, lit "No SendKey", [])) := by
      simp only [mainStep]
      rw [if_pos hch, hsec]
      rfl
    simp [okCount, mainResults, List.filterMap_append, List.filterMap_cons, hstep,
      List.count_append, List.count_cons]
  · intro F envmap defaults u us₁ us₂ hch hsec
    have hstep : mainStep F net envmap defaults u =
        some (.telegram, (0, lit "No TG creds", [])) := by
      simp only [mainStep]
      rw [if_neg (by rw [hch]; decide), if_pos hch]
      unfold push_telegram
      rw [if_pos hsec]
    simp [okCount, mainResults, List.filterMap_append, List.filterMap_cons, hstep,
      List.count_append, List.count_cons]
  · intro F envmap defaults u us₁ us₂ hch hsec
    have hstep : mainStep F net envmap defaults u =
        some (.wecom, (0, lit "No WeCom webhook", [])) := by
      simp only [mainStep]
      rw [if_neg (by rw [hch]; decide), if_neg (by rw [hch]; decide), if_pos hch, hsec]
      rfl
    simp [okCount, mainResults, List.filterMap_append, List.filterMap_cons, hstep,
      List.count_append, List.count_cons]

/-- C10 witness: a serverchan user with no configured SendKey leaves the
success count unchanged even on a network that would answer 200. -/
theorem push_empty_credentials_witness :
    okCount sampleF sampleNet sampleEnv {} ([] ++ sampleUserNoKey :: []) =
      okCount sampleF sampleNet sampleEnv {} ([] ++ []) :=
  (push_empty_credentials sampleNet [] []).2.2.2.2.1 sampleF sampleEnv {}
    sampleUserNoKey [] [] (by decide) (by decide)

theorem render_markdown_embeds (g : Str) (idx : List IdxEntry) (north : North)
    (wl : List WRow) (rss : List RssItem) (uname : Str) :
    ∃ rest : Str, render_markdown g idx north wl rss uname =
      lit "# 📈 " ++ (if uname = [] then [] else uname ++ lit "的") ++
        lit "每日财经早报（" ++ g ++ rest := by
  refine ⟨lit "）\n\n" ++
    (lit "## 大盘速览\n" ++ (idx.map idxLine).flatten ++ lit "\n") ++
    northSection north ++
    (if wl = [] then []
     else lit "## 自选股动向\n" ++ (wl.map wlLine).flatten ++ lit "\n") ++
    (if rss = [] then []
     else lit "## 新闻速读（精选）\n" ++ (rss.map rssLine).flatten ++ lit "\n") ++
    lit "> 数据来源：交易所/公开RSS/akshare/新浪。仅作信息参考，不构成投资建议。\n", ?_⟩
  simp only [render_markdown]
  simp [List.append_assoc]

/-- C6 -- `generate_report` returns exactly the markdown rendered from the
fetched index snapshot, northbound figure, watchlist quotes and RSS items,
resolving timezone, watchlist, rss_feeds and rss_limit user-first, then
defaults, then built-in fallbacks; the meta counts are the lengths of the
fetched watchlist and RSS lists, and the meta gen_time is the timestamp
embedded in the markdown header. -/
theorem generate_report_plumbing (F : FetchEnv) (user defaults : ConfMap) :
    (generate_report F user defaults).1 =
      render_markdown
        (F.nowStr (pick_user_value user.timezone defaults.timezone (lit "Asia/Shanghai")))
        (fetch_index_snapshot F.akR F.sinaR)
        F.north
        (F.watch (pick_user_value user.watchlist defaults.watchlist []))
        (fetch_rss F.rssParse (pick_user_value user.rss_feeds defaults.rss_feeds [])
          (pick_user_value user.rss_limit defaults.rss_limit 6))
        (match user.name with
         | some n => if n = [] then user.id.getD [] else n
         | none => user.id.getD []) ∧
    (generate_report F user defaults).2.watchlist_count =
      (F.watch (pick_user_value user.watchlist defaults.watchlist [])).length ∧
    (generate_report F user defaults).2.rss_count =
      (fetch_rss F.rssParse (pick_user_value user.rss_feeds defaults.rss_feeds [])
        (pick_user_value user.rss_limit defaults.rss_limit 6)).length ∧
    (generate_report F user defaults).2.gen_time =
      F.nowStr (pick_user_value user.timezone defaults.timezone (lit "Asia/Shanghai")) ∧
    (generate_report F user defaults).2.tz =
      pick_user_value user.timezone defaults.timezone (lit "Asia/Shanghai") ∧
    ∃ rest : Str, (generate_report F user defaults).1 =
      lit "# 📈 " ++
        (if (match user.name with
             | some n => if n = [] then user.id.getD [] else n
             | none => user.id.getD []) = [] then []
         else (match user.name with
               | some n => if n = [] then user.id.getD [] else n
               | none => user.id.getD []) ++ lit "的") ++
        lit "每日财经早报（" ++ (generate_report F user defaults).2.gen_time ++ rest := by
  refine ⟨rfl, rfl, rfl, rfl, rfl, ?_⟩
  exact render_markdown_embeds _ _ _ _ _ _

theorem secrets_pair_mem (cond : Prop) [Decidable cond] (K : Str) (o : Option Str)
    (k v : Str) :
    ((k, v) ∈ (if cond ∧ truthy o = true then [(K, o.getD [])] else [] :
      List (Str × Str))) ↔ (cond ∧ k = K ∧ o = some v ∧ v ≠ []) := by
  split_ifs with h
  · obtain ⟨hc, ht⟩ := h
    cases o with
    | none => simp [truthy] at ht
    | some s =>
      have hs : s ≠ [] := by
        simpa [truthy, List.isEmpty_iff] using ht
      simp only [Option.getD, List.mem_singleton, Prod.mk.injEq]
      constructor
      · rintro ⟨hk, hv⟩
        exact ⟨hc, hk, by rw [hv], by rw [← hv] at hs; exact hs⟩
      · rintro ⟨_, hk, hsv, _⟩
        exact ⟨hk, (Option.some.inj hsv).symm⟩
  · simp only [List.not_mem_nil, false_iff]
    rintro ⟨hc, _, ho, hv⟩
    exact h ⟨hc, by simp [truthy, ho, List.isEmpty_iff, hv]⟩

/-- C5 -- `export_users_yaml` writes exactly one entry per stored user, in
store order; each entry's watchlist is exactly that user's `Watch` codes,
its rss_feeds exactly that user's `Rss` urls, and its secrets hold exactly
the credential keys of the user's selected channel whose stored values are
non-empty. The mutation handlers (`add_watch` here) only grow their own
table before re-exporting, so the invariant holds after every mutation. -/
theorem export_users_yaml_per_user (db : DB) :
    (export_users_yaml db).length = db.users.length ∧
    (∀ (i : Nat) (u : DUser), db.users[i]? = some u →
      ∃ e : YEntry, (export_users_yaml db)[i]? = some e ∧
        e.id = u.uid ∧
        e.watchlist = (db.watches.filter (fun w => w.user_id == u.id)).map DWatch.code ∧
        e.rss_feeds = (db.rss.filter (fun r => r.user_id == u.id)).map DRss.url ∧
        (∀ k v : Str, (k, v) ∈ e.secrets ↔
          ((u.channel = lit "serverchan" ∧ k = lit "SCT_SENDKEY" ∧
            u.sct_sendkey = some v ∧ v ≠ []) ∨
           (u.channel = lit "telegram" ∧ k = lit "BOT_TOKEN" ∧
            u.tg_bot_token = some v ∧ v ≠ []) ∨
           (u.channel = lit "telegram" ∧ k = lit "CHAT_ID" ∧
            u.tg_chat_id = some v ∧ v ≠ []) ∨
           (u.channel = lit "wecom" ∧ k = lit "WEBHOOK" ∧
            u.wecom_webhook = some v ∧ v ≠ [])))) ∧
    (∀ (me : DUser) (code : Str) (fresh : Nat),
      ((add_watch db me code fresh).1).users = db.users ∧
      ((add_watch db me code fresh).1).rss = db.rss ∧
      ((add_watch db me code fresh).2 = true → norm_code code ≠ [])) := by
  refine ⟨by simp [export_users_yaml], ?_, ?_⟩
  · intro i u hu
    refine ⟨entryFor db u, ?_, rfl, rfl, rfl, ?_⟩
    · rw [export_users_yaml, List.getElem?_map, hu]
      rfl
    · intro k v
      simp only [entryFor, List.mem_append, secrets_pair_mem]
      tauto
  · intro me code fresh
    simp only [add_watch]
    split_ifs with h
    · exact ⟨rfl, rfl, fun hb => by cases hb⟩
    · exact ⟨rfl, rfl, fun _ => h⟩

/-- C5 witness: the single-user fixture exports one entry whose watchlist is
the user's own watch row only and whose secrets are the two Telegram keys. -/
theorem export_users_yaml_per_user_witness :
    ∃ e : YEntry, (export_users_yaml sampleDb)[0]? = some e ∧
      e.id = lit "eva" ∧
      e.watchlist = [lit "sh600519"] ∧
      e.rss_feeds = [lit "https://a"] ∧
      (lit "BOT_TOKEN", lit "tok") ∈ e.secrets := by
  obtain ⟨e, he, hid, hwl, hrss, hsec⟩ :=
    (export_users_yaml_per_user sampleDb).2.1 0
      { id := 1, uid := lit "eva", name := lit "Eva",
        password_hash := lit "h", channel := lit "telegram",
        tg_bot_token := some (lit "tok"), tg_chat_id := some (lit "chat") } rfl
  refine ⟨e, he, hid, ?_, ?_, ?_⟩
  · rw [hwl]; decide
  · rw [hrss]; decide
  · exact (hsec (lit "BOT_TOKEN") (lit "tok")).mpr
      (Or.inr (Or.inl ⟨rfl, rfl, rfl, by decide⟩))

/-- C7 -- `register_post` persists a new user only when the stripped uid
matches `[a-zA-Z0-9_\-]{2,32}` and is not already taken; otherwise it
returns an error page and leaves the store unchanged. -/
theorem register_post_validation (db : DB) (hash : Str → Str) (fresh : Nat)
    (uid name password : Str) :
    (validUid (stripL uid) = false →
      register_post db hash fresh uid name password = (db, .errFormat)) ∧
    (validUid (stripL uid) = true →
      (∃ x ∈ db.users, x.uid = stripL uid) →
      register_post db hash fresh uid name password = (db, .errExists)) ∧
    (validUid (stripL uid) = true →
      (∀ x ∈ db.users, x.uid ≠ stripL uid) →
      (register_post db hash fresh uid name password).2 = .ok ∧
      ∃ r : DUser,
        (register_post db hash fresh uid name password).1.users = db.users ++ [r] ∧
        r.uid = stripL uid ∧
        (register_post db hash fresh uid name password).1.watches = db.watches ∧
        (register_post db hash fresh uid name password).1.rss = db.rss) ∧
    (∀ s : Str, validUid s = true ↔
      (2 ≤ s.length ∧ s.length ≤ 32 ∧ ∀ c ∈ s, isUidChar c = true)) := by
  refine ⟨?_, ?_, ?_, ?_⟩
  · intro h
    simp [register_post, h]
  · intro hv ⟨x, hx, hxe⟩
    have hany : db.users.any (fun y => y.uid == stripL uid) = true :=
      List.any_eq_true.mpr ⟨x, hx, by simp [hxe]⟩
    simp [register_post, hv, hany]
  · intro hv hnone
    have hany : db.users.any (fun y => y.uid == stripL uid) = false := by
      rw [← Bool.not_eq_true, List.any_eq_true]
      rintro ⟨x, hx, hxe⟩
      exact hnone x hx (by simpa using hxe)
    refine ⟨by simp [register_post, hv, hany], ?_⟩
    refine ⟨{ id := fresh, uid := stripL uid,
              name := if stripL name = [] then stripL uid else stripL name,
              password_hash := hash password }, ?_, rfl, ?_, ?_⟩ <;>
      simp [register_post, hv, hany]
  · intro s
    simp only [validUid, Bool.and_eq_true, decide_eq_true_eq, List.all_eq_true]
    tauto

/-- C7 witness: registering uid `" eva "` into an empty store succeeds and
appends exactly one user row with uid `eva`. -/
theorem register_post_validation_witness :
    (register_post {} (fun _ => lit "h") 1 (lit " eva ") [] (lit "p")).2 = .ok ∧
    ∃ r : DUser,
      (register_post {} (fun _ => lit "h") 1 (lit " eva ") [] (lit "p")).1.users =
        ([] : List DUser) ++ [r] ∧
      r.uid = stripL (lit " eva ") ∧
      (register_post {} (fun _ => lit "h") 1 (lit " eva ") [] (lit "p")).1.watches =
        ([] : List DWatch) ∧
      (register_post {} (fun _ => lit "h") 1 (lit " eva ") [] (lit "p")).1.rss =
        ([] : List DRss) :=
  (register_post_validation {} (fun _ => lit "h") 1 (lit " eva ") [] (lit "p")).2.2.1
    (by decide) (by intro x hx; cases hx)

